/-
Verification of the neutcurve library (hillcurve.py and curvefits.py):
a shallow embedding of the parts of the code relevant to the claims,
followed by theorems settling each claim.

Conventions of the embedding:
  * Python floats are idealized as real numbers `ℝ` wherever a
    transcendental operation (`**` with real exponent, `log10`) occurs,
    and as rationals `ℚ` where the code only does field arithmetic and
    comparisons, so that concrete instances evaluate by `decide`/`rfl`.
  * A Python call that may `return` a value, fall off the end (returning
    `None`), or `raise`, is modelled by `PyResult`; a function that either
    returns or raises is modelled by `Except String`.
  * `pandas` data frames are modelled as lists of row structures.
-/
import Mathlib

namespace Neutcurve

/-- Result of a Python call: a returned value, `None`, or a raised
exception carrying its message. -/
inductive PyResult (α : Type) where
  | value : α → PyResult α
  | none : PyResult α
  | error : String → PyResult α
deriving DecidableEq, Repr

/-- The state of a fitted `HillCurve` as far as `ic50` and friends read it:
the sorted concentrations `cs` and the four fitted parameters
(hillcurve.py attributes `cs`, `top`, `bottom`, `midpoint`, `slope`). -/
structure HillCurve where
  cs : List ℝ
  top : ℝ
  bottom : ℝ
  midpoint : ℝ
  slope : ℝ

namespace HillCurve

/-- `self.cs[0]`: smallest (first sorted) measured concentration. -/
def cs0 (h : HillCurve) : ℝ := h.cs.headD 0

/-- `self.cs[-1]`: largest (last sorted) measured concentration. -/
def csLast (h : HillCurve) : ℝ := h.cs.getLastD 0

/-- The algebraic IC50 computed on hillcurve.py lines 366-367:
`midpoint * ((top - 0.5) / (0.5 - bottom)) ** (1.0 / slope)`. -/
noncomputable def algIC50 (h : HillCurve) : ℝ :=
  h.midpoint * ((h.top - 0.5) / (0.5 - h.bottom)) ^ (1 / h.slope)

/-- The tail of `HillCurve.ic50` (hillcurve.py lines 375-383), reached
with the local variable `bound` set, when no early return happened:
dispatch on `method`, falling off the end (`None`) for `'interpolate'`. -/
def ic50Tail (h : HillCurve) (method bound : String) : PyResult ℝ :=
  if method = "bound" then
    if bound = "upper" then PyResult.value h.csLast
    else if bound = "lower" then PyResult.value h.cs0
    else PyResult.error ("invalid `bound` " ++ bound)
  else if method ≠ "interpolate" then
    PyResult.error ("invalid `method` of " ++ method)
  else PyResult.none

open Classical in
/-- `HillCurve.ic50` (hillcurve.py lines 361-383). -/
noncomputable def ic50 (h : HillCurve) (method : String) : PyResult ℝ :=
  if h.top < 0.5 ∧ h.bottom < 0.5 then
    h.ic50Tail method "bottom"
  else if 0.5 ≤ h.top ∧ 0.5 ≤ h.bottom then
    h.ic50Tail method "upper"
  else
    if h.cs0 ≤ h.algIC50 ∧ h.algIC50 ≤ h.csLast then PyResult.value h.algIC50
    else if h.algIC50 < h.cs0 then h.ic50Tail method "bottom"
    else h.ic50Tail method "upper"

open Classical in
/-- `HillCurve.ic50_bound` (hillcurve.py lines 385-396).  An exception
raised by the inner `ic50` calls propagates. -/
noncomputable def ic50_bound (h : HillCurve) : PyResult String :=
  match h.ic50 "interpolate" with
  | PyResult.value _ => PyResult.value "interpolated"
  | PyResult.error e => PyResult.error e
  | PyResult.none =>
      match h.ic50 "bound" with
      | PyResult.error e => PyResult.error e
      | PyResult.value v =>
          if v = h.cs0 then PyResult.value "lower"
          else if v = h.csLast then PyResult.value "upper"
          else PyResult.error "ic50 is not upper or lower bound"
      | PyResult.none => PyResult.error "ic50 is not upper or lower bound"

/-- For `method = 'interpolate'`, the tail of `ic50` always falls off the
end of the function, returning `None`, whatever `bound` was set to. -/
theorem ic50Tail_interpolate (h : HillCurve) (bound : String) :
    h.ic50Tail "interpolate" bound = PyResult.none := by
  simp [ic50Tail]

/-- For `method = 'bound'` with the local `bound` set to `'bottom'`
(the string the code actually stores for the low cases), the dispatch
recognizes neither `'upper'` nor `'lower'` and raises. -/
theorem ic50Tail_bound_bottom (h : HillCurve) :
    h.ic50Tail "bound" "bottom" = PyResult.error "invalid `bound` bottom" := by
  simp [ic50Tail]

/-- For `method = 'bound'` with `bound = 'upper'` the largest measured
concentration is returned. -/
theorem ic50Tail_bound_upper (h : HillCurve) :
    h.ic50Tail "bound" "upper" = PyResult.value h.csLast := by
  simp [ic50Tail]

end HillCurve

end Neutcurve

namespace Neutcurve

/-- A concrete curve whose fitted top and bottom are both below 0.5
(top = 0.3, bottom = 0.1), as arises when neutralization never rises
to 50% remaining infectivity. -/
noncomputable def lowCurve : HillCurve :=
  { cs := [1, 2], top := 0.3, bottom := 0.1, midpoint := 1, slope := 1 }

/-- A concrete curve (top = 1, bottom = 0, slope = 1, midpoint = 1,
cs = [1, 2]) whose algebraic IC50 equals 1, inside the measured range. -/
noncomputable def inRangeCurve : HillCurve :=
  { cs := [1, 2], top := 1, bottom := 0, midpoint := 1, slope := 1 }

/-- A concrete curve (top = 1, bottom = 0, slope = 1, midpoint = 10,
cs = [1, 2]) whose algebraic IC50 equals 10, above the measured range. -/
noncomputable def highCurve : HillCurve :=
  { cs := [1, 2], top := 1, bottom := 0, midpoint := 10, slope := 1 }

theorem inRangeCurve_algIC50 : inRangeCurve.algIC50 = 1 := by
  have h5 : ((1 : ℝ) - 0.5) / (0.5 - 0) = 1 := by norm_num
  simp only [HillCurve.algIC50, inRangeCurve]
  rw [h5]
  norm_num [Real.one_rpow]

theorem highCurve_algIC50 : highCurve.algIC50 = 10 := by
  have h5 : ((1 : ℝ) - 0.5) / (0.5 - 0) = 1 := by norm_num
  simp only [HillCurve.algIC50, highCurve]
  rw [h5]
  norm_num [Real.one_rpow]

theorem highCurve_ic50_interpolate : highCurve.ic50 "interpolate" = PyResult.none := by
  rw [HillCurve.ic50]
  rw [if_neg (by norm_num [highCurve]), if_neg (by norm_num [highCurve])]
  rw [if_neg (by rw [highCurve_algIC50]; norm_num [highCurve, HillCurve.cs0, HillCurve.csLast])]
  rw [if_neg (by rw [highCurve_algIC50]; norm_num [highCurve, HillCurve.cs0])]
  exact highCurve.ic50Tail_interpolate "upper"

theorem highCurve_ic50_bound : highCurve.ic50 "bound" = PyResult.value 2 := by
  rw [HillCurve.ic50]
  rw [if_neg (by norm_num [highCurve]), if_neg (by norm_num [highCurve])]
  rw [if_neg (by rw [highCurve_algIC50]; norm_num [highCurve, HillCurve.cs0, HillCurve.csLast])]
  rw [if_neg (by rw [highCurve_algIC50]; norm_num [highCurve, HillCurve.cs0])]
  rw [HillCurve.ic50Tail_bound_upper]
  simp [highCurve, HillCurve.csLast]

/-- C1 (code bug): on a successfully fitted curve whose fitted top and
bottom are both < 0.5 — a case the claim and the method's own docstring
say must yield the smallest measured concentration — `ic50('bound')`
raises `ValueError("invalid `bound` bottom")` instead of returning a
number: the low cases store the tag `'bottom'` but the `method='bound'`
dispatch only recognizes `'upper'` and `'lower'`. -/
theorem C1_ic50_bound_raises : lowCurve.ic50 "bound" = PyResult.error "invalid `bound` bottom" := by
  rw [HillCurve.ic50, if_pos (by norm_num [lowCurve])]
  exact lowCurve.ic50Tail_bound_bottom

/-- C3 (counterexample): with `method = 'garbage'` — neither
`'interpolate'` nor `'bound'` — `ic50` does **not** raise when the
algebraic IC50 lies inside the measured range: it returns the IC50
through the early-return branch without ever validating `method`. -/
theorem C3_counterexample : inRangeCurve.ic50 "garbage" = PyResult.value 1 := by
  rw [HillCurve.ic50]
  rw [if_neg (by norm_num [inRangeCurve]), if_neg (by norm_num [inRangeCurve])]
  rw [if_pos (by rw [inRangeCurve_algIC50]; norm_num [inRangeCurve, HillCurve.cs0, HillCurve.csLast])]
  rw [inRangeCurve_algIC50]

/-- C3 (amended): for a fitted curve and a `method` other than
`'interpolate'` and `'bound'`, `ic50(method)` raises
`ValueError("invalid `method` of ...")` exactly when the algebraic-IC50
branch does not return early — i.e. when both fitted top and bottom lie
on the same side of 0.5, or the algebraic IC50 falls outside the
measured concentration range; when the algebraic IC50 is in range the
value is returned without `method` being validated. -/
theorem C3_invalid_method (h : HillCurve) (method : String)
    (hm1 : method ≠ "interpolate") (hm2 : method ≠ "bound")
    (hcase : (h.top < 0.5 ∧ h.bottom < 0.5) ∨ (0.5 ≤ h.top ∧ 0.5 ≤ h.bottom) ∨
      ¬(h.cs0 ≤ h.algIC50 ∧ h.algIC50 ≤ h.csLast)) :
    h.ic50 method = PyResult.error ("invalid `method` of " ++ method) := by
  have htail : ∀ bound, h.ic50Tail method bound =
      PyResult.error ("invalid `method` of " ++ method) := by
    intro bound
    rw [HillCurve.ic50Tail, if_neg hm2, if_pos hm1]
  rw [HillCurve.ic50]
  by_cases h1 : h.top < 0.5 ∧ h.bottom < 0.5
  · rw [if_pos h1]; exact htail "bottom"
  · rw [if_neg h1]
    by_cases h2 : 0.5 ≤ h.top ∧ 0.5 ≤ h.bottom
    · rw [if_pos h2]; exact htail "upper"
    · rw [if_neg h2]
      have h3 : ¬(h.cs0 ≤ h.algIC50 ∧ h.algIC50 ≤ h.csLast) := by
        rcases hcase with hc | hc | hc
        · exact absurd hc h1
        · exact absurd hc h2
        · exact hc
      rw [if_neg h3]
      by_cases h4 : h.algIC50 < h.cs0
      · rw [if_pos h4]; exact htail "bottom"
      · rw [if_neg h4]; exact htail "upper"

/-- C3 (witness): the amended theorem applied to a concrete curve with
top and bottom both below 0.5 and the invalid method `'garbage'`. -/
theorem C3_invalid_method_witness :
    lowCurve.ic50 "garbage" = PyResult.error "invalid `method` of garbage" :=
  C3_invalid_method lowCurve "garbage" (by decide) (by decide)
    (Or.inl (by norm_num [lowCurve]))

/-- C5 (confirmed): `ic50('interpolate')` returns a numeric value exactly
when the algebraic IC50 is computed (fitted top and bottom not both on
the same side of 0.5) and lies within the measured concentration range,
in which case the value is the algebraic IC50; in every other case it
returns `None` — it never raises. -/
theorem C5_interpolate_iff (h : HillCurve) :
    (∀ x : ℝ, h.ic50 "interpolate" = PyResult.value x ↔
      (¬(h.top < 0.5 ∧ h.bottom < 0.5) ∧ ¬(0.5 ≤ h.top ∧ 0.5 ≤ h.bottom) ∧
        h.cs0 ≤ h.algIC50 ∧ h.algIC50 ≤ h.csLast ∧ x = h.algIC50)) ∧
    (h.ic50 "interpolate" = PyResult.value h.algIC50 ∨
      h.ic50 "interpolate" = PyResult.none) := by
  rw [HillCurve.ic50]
  by_cases h1 : h.top < 0.5 ∧ h.bottom < 0.5
  · rw [if_pos h1, HillCurve.ic50Tail_interpolate]
    exact ⟨fun x => by simp [h1], Or.inr rfl⟩
  · rw [if_neg h1]
    by_cases h2 : 0.5 ≤ h.top ∧ 0.5 ≤ h.bottom
    · rw [if_pos h2, HillCurve.ic50Tail_interpolate]
      exact ⟨fun x => by simp [h1, h2], Or.inr rfl⟩
    · rw [if_neg h2]
      by_cases h3 : h.cs0 ≤ h.algIC50 ∧ h.algIC50 ≤ h.csLast
      · rw [if_pos h3]
        refine ⟨fun x => ?_, Or.inl rfl⟩
        constructor
        · intro hx
          cases hx
          exact ⟨h1, h2, h3.1, h3.2, rfl⟩
        · rintro ⟨-, -, -, -, rfl⟩
          rfl
      · rw [if_neg h3]
        have hside : ∀ x : ℝ, PyResult.none = PyResult.value x ↔
            (¬(h.top < 0.5 ∧ h.bottom < 0.5) ∧ ¬(0.5 ≤ h.top ∧ 0.5 ≤ h.bottom) ∧
              h.cs0 ≤ h.algIC50 ∧ h.algIC50 ≤ h.csLast ∧ x = h.algIC50) := by
          intro x
          constructor
          · intro hx
            exact PyResult.noConfusion hx
          · rintro ⟨-, -, hc, hd, -⟩
            exact absurd ⟨hc, hd⟩ h3
        by_cases h4 : h.algIC50 < h.cs0
        · rw [if_pos h4, HillCurve.ic50Tail_interpolate]
          exact ⟨hside, Or.inr rfl⟩
        · rw [if_neg h4, HillCurve.ic50Tail_interpolate]
          exact ⟨hside, Or.inr rfl⟩

/-- C10 (confirmed): whenever `ic50('bound')` returns a value while
`ic50('interpolate')` returns `None`, that value is one of the extreme
sorted concentrations (in fact always the largest, since the low cases
raise instead of returning), so `ic50_bound()` returns `'lower'` or
`'upper'` and its `RuntimeError('ic50 is not upper or lower bound')`
branch is unreachable. -/
theorem C10_ic50_bound_total (h : HillCurve) (v : ℝ)
    (hb : h.ic50 "bound" = PyResult.value v)
    (hi : h.ic50 "interpolate" = PyResult.none) :
    (v = h.cs0 ∨ v = h.csLast) ∧
    (h.ic50_bound = PyResult.value "lower" ∨
      h.ic50_bound = PyResult.value "upper") := by
  have hv : v = h.csLast := by
    rw [HillCurve.ic50] at hb hi
    by_cases h1 : h.top < 0.5 ∧ h.bottom < 0.5
    · rw [if_pos h1, HillCurve.ic50Tail_bound_bottom] at hb
      cases hb
    · rw [if_neg h1] at hb hi
      by_cases h2 : 0.5 ≤ h.top ∧ 0.5 ≤ h.bottom
      · rw [if_pos h2, HillCurve.ic50Tail_bound_upper] at hb
        cases hb
        rfl
      · rw [if_neg h2] at hb hi
        by_cases h3 : h.cs0 ≤ h.algIC50 ∧ h.algIC50 ≤ h.csLast
        · rw [if_pos h3] at hi
          cases hi
        · rw [if_neg h3] at hb
          by_cases h4 : h.algIC50 < h.cs0
          · rw [if_pos h4, HillCurve.ic50Tail_bound_bottom] at hb
            cases hb
          · rw [if_neg h4, HillCurve.ic50Tail_bound_upper] at hb
            cases hb
            rfl
  refine ⟨Or.inr hv, ?_⟩
  have key : h.ic50_bound =
      (if h.csLast = h.cs0 then PyResult.value "lower"
       else if h.csLast = h.csLast then PyResult.value "upper"
       else PyResult.error "ic50 is not upper or lower bound") := by
    rw [HillCurve.ic50_bound, hi, hb, hv]
  rw [key]
  by_cases h5 : h.csLast = h.cs0
  · rw [if_pos h5]
    exact Or.inl rfl
  · rw [if_neg h5, if_pos rfl]
    exact Or.inr rfl

/-- C10 (witness): the theorem applied to a concrete curve whose
algebraic IC50 (= 10) lies above the measured range [1, 2]. -/
theorem C10_ic50_bound_total_witness :
    ((2 : ℝ) = highCurve.cs0 ∨ (2 : ℝ) = highCurve.csLast) ∧
    (highCurve.ic50_bound = PyResult.value "lower" ∨
      highCurve.ic50_bound = PyResult.value "upper") :=
  C10_ic50_bound_total highCurve 2 highCurve_ic50_bound highCurve_ic50_interpolate

/-! ### The initial midpoint guess of `HillCurve.__init__`
(hillcurve.py lines 278-295).  This computation is pure field arithmetic
and comparisons, so the floats are idealized as rationals, which keeps
every instance decidable. -/

/-- `getD` of an in-bounds index is the corresponding element. -/
theorem getDlt {α : Type} (l : List α) (d : α) (n : ℕ) (h : n < l.length) :
    l.getD n d = l[n] := by
  rw [List.getD_eq_getElem?_getD, List.getElem?_eq_getElem h]
  rfl

/-- The Boolean array `bs[:-1] != bs[1:]` of adjacent-pair inequalities. -/
def adjacentNe : List Bool → List Bool
  | a :: b :: rest => (a != b) :: adjacentNe (b :: rest)
  | _ => []

/-- `scipy.argmax` on a Boolean array: the index of the first `True`
entry, and 0 when no entry is `True`. -/
def argmaxBool (l : List Bool) : ℕ :=
  if true ∈ l then l.findIdx id else 0

theorem adjacentNe_length : ∀ bs : List Bool, (adjacentNe bs).length = bs.length - 1
  | [] => rfl
  | [_] => rfl
  | a :: b :: r => by
      simp only [adjacentNe, List.length_cons, adjacentNe_length (b :: r)]
      omega

theorem adjacentNe_getD : ∀ (bs : List Bool) (i : ℕ), i + 1 < bs.length →
    (adjacentNe bs).getD i false = (bs.getD i false != bs.getD (i + 1) false)
  | [], i, h => by simp at h
  | [_], i, h => by simp at h
  | _ :: b :: r, 0, _ => rfl
  | a :: b :: r, i + 1, h => by
      have := adjacentNe_getD (b :: r) i (by simpa using h)
      simpa [adjacentNe] using this

/-- A Boolean list holding both `true` and `false` has an adjacent flip. -/
theorem adjacentNe_mem_true : ∀ bs : List Bool, true ∈ bs → false ∈ bs →
    true ∈ adjacentNe bs
  | [], ht, _ => by simp at ht
  | [a], ht, hf => by
      simp only [List.mem_singleton] at ht hf
      rw [← ht] at hf
      cases hf
  | a :: b :: r, ht, hf => by
      by_cases hab : a = b
      · subst hab
        have ht' : true ∈ a :: r := by
          rcases List.mem_cons.mp ht with h | h
          · exact h ▸ List.mem_cons_self _ _
          · exact h
        have hf' : false ∈ a :: r := by
          rcases List.mem_cons.mp hf with h | h
          · exact h ▸ List.mem_cons_self _ _
          · exact h
        have := adjacentNe_mem_true (a :: r) ht' hf'
        exact List.mem_cons.mpr (Or.inr this)
      · have hne : (a != b) = true := bne_iff_ne.mpr hab
        exact List.mem_cons.mpr (Or.inl hne.symm)

/-- What `argmaxBool` of the adjacent-inequality array finds on a mixed
Boolean list: the first index at which adjacent entries differ. -/
theorem argmaxBool_adjacentNe (bs : List Bool) (ht : true ∈ bs) (hf : false ∈ bs) :
    argmaxBool (adjacentNe bs) + 1 < bs.length ∧
    bs.getD (argmaxBool (adjacentNe bs)) false ≠
      bs.getD (argmaxBool (adjacentNe bs) + 1) false ∧
    ∀ j, j < argmaxBool (adjacentNe bs) →
      bs.getD j false = bs.getD (j + 1) false := by
  have hmem : true ∈ adjacentNe bs := adjacentNe_mem_true bs ht hf
  have hidx : argmaxBool (adjacentNe bs) = (adjacentNe bs).findIdx id := by
    rw [argmaxBool, if_pos hmem]
  have hlt : (adjacentNe bs).findIdx id < (adjacentNe bs).length :=
    List.findIdx_lt_length_of_exists ⟨true, hmem, rfl⟩
  have hlen : (adjacentNe bs).length = bs.length - 1 := adjacentNe_length bs
  have hbs1 : 1 ≤ bs.length := by
    cases bs with
    | nil => simp at ht
    | cons x xs => simp
  have hbound : argmaxBool (adjacentNe bs) + 1 < bs.length := by
    rw [hidx]
    omega
  refine ⟨hbound, ?_, ?_⟩
  · have hval : id ((adjacentNe bs).get ⟨(adjacentNe bs).findIdx id, hlt⟩) = true :=
      List.findIdx_getElem
    have hgetD : (adjacentNe bs).getD (argmaxBool (adjacentNe bs)) false = true := by
      rw [hidx, getDlt _ _ _ hlt]
      exact hval
    rw [adjacentNe_getD bs _ hbound] at hgetD
    exact bne_iff_ne.mp hgetD
  · intro j hj
    have hjlt : j < (adjacentNe bs).findIdx id := hidx ▸ hj
    have hval : id ((adjacentNe bs).get ⟨j, Nat.le_trans hjlt (List.findIdx_le_length id)⟩) =
        false := List.not_of_lt_findIdx hjlt
    have hjb : j + 1 < bs.length := by omega
    have hgetD : (adjacentNe bs).getD j false = false := by
      rw [getDlt _ _ _ (Nat.le_trans hjlt (List.findIdx_le_length id))]
      exact hval
    rw [adjacentNe_getD bs _ hjb] at hgetD
    simpa using hgetD

/-- The initial midpoint guess of `HillCurve.__init__` (hillcurve.py
lines 278-295), in terms of the sorted concentrations `cs`, the matching
responses `fs` and the already-guessed `slope`, `top` and `bottom`:
`midval = (top - bottom) / 2`; if all responses exceed `midval` or none
does, pick an endpoint concentration by the sign of the slope guess;
otherwise average the two concentrations bracketing the first index where
`(fs > midval)` changes truth value (`scipy.argmax` of the adjacent
inequality array). -/
def midpointGuess (cs fs : List ℚ) (slope top bottom : ℚ) : ℚ :=
  let midval := (top - bottom) / 2
  if fs.all fun f => decide (midval < f) then
    if 0 < slope then cs.getLastD 0 else cs.headD 0
  else if fs.all fun f => decide (f ≤ midval) then
    if 0 < slope then cs.headD 0 else cs.getLastD 0
  else
    let i := argmaxBool (adjacentNe (fs.map fun f => decide (midval < f)))
    (cs.getD i 0 + cs.getD (i + 1) 0) / 2

/-- Modelled from the spec's words, for comparison with `midpointGuess`:
identical except that the "halfway value between guessed top and
bottom" reads `(top + bottom) / 2`, where the code computes
`(top - bottom) / 2`. -/
def midpointGuessHalfway (cs fs : List ℚ) (slope top bottom : ℚ) : ℚ :=
  let midval := (top + bottom) / 2
  if fs.all fun f => decide (midval < f) then
    if 0 < slope then cs.getLastD 0 else cs.headD 0
  else if fs.all fun f => decide (f ≤ midval) then
    if 0 < slope then cs.headD 0 else cs.getLastD 0
  else
    let i := argmaxBool (adjacentNe (fs.map fun f => decide (midval < f)))
    (cs.getD i 0 + cs.getD (i + 1) 0) / 2

/-- C4 (counterexample): with guessed top 1 and bottom 1/2, responses
[9/10, 3/5] at concentrations [1, 2] and slope guess 3/2, the code's
midvalue is `(1 - 1/2)/2 = 1/4`, both responses sit above it, and the
guess degrades to the endpoint 2; with the claim's halfway midvalue
`(1 + 1/2)/2 = 3/4` the responses cross it and the guess would be the
bracketing mean 3/2.  So the claim's "halfway value between the guessed
top and guessed bottom" misdescribes the code. -/
theorem C4_counterexample :
    midpointGuess [1, 2] [9/10, 3/5] (3/2) 1 (1/2) = 2 ∧
    midpointGuessHalfway [1, 2] [9/10, 3/5] (3/2) 1 (1/2) = 3/2 ∧
    midpointGuess [1, 2] [9/10, 3/5] (3/2) 1 (1/2) ≠
      midpointGuessHalfway [1, 2] [9/10, 3/5] (3/2) 1 (1/2) := by
  have h1 : midpointGuess [1, 2] [9/10, 3/5] (3/2) 1 (1/2) = 2 := by
    norm_num [midpointGuess]
  have h2 : midpointGuessHalfway [1, 2] [9/10, 3/5] (3/2) 1 (1/2) = 3/2 := by
    norm_num [midpointGuessHalfway, argmaxBool, adjacentNe, List.findIdx,
      List.findIdx.go]
  refine ⟨h1, h2, ?_⟩
  rw [h1, h2]
  norm_num

/-- C4 (amended; `midval` is `(top - bottom)/2`, half the difference of
the guessed top and bottom, not their halfway value): if every response
exceeds `midval`, the guess is the endpoint concentration chosen by the
slope-sign guess; if every response is ≤ `midval` (and there is at least
one response), the opposite endpoint; and if the responses cross
`midval`, the guess is the mean of the two concentrations bracketing the
first index where `(response > midval)` changes truth value — and such a
first crossing index exists, so the computation never fails. -/
theorem C4_midpoint_guess (cs fs : List ℚ) (slope top bottom : ℚ) :
    ((∀ f ∈ fs, (top - bottom) / 2 < f) →
      midpointGuess cs fs slope top bottom =
        if 0 < slope then cs.getLastD 0 else cs.headD 0) ∧
    (fs ≠ [] → (∀ f ∈ fs, f ≤ (top - bottom) / 2) →
      midpointGuess cs fs slope top bottom =
        if 0 < slope then cs.headD 0 else cs.getLastD 0) ∧
    ((∃ f ∈ fs, (top - bottom) / 2 < f) → (∃ f ∈ fs, f ≤ (top - bottom) / 2) →
      ∃ i, i + 1 < fs.length ∧
        ¬(((top - bottom) / 2 < fs.getD i 0) ↔ ((top - bottom) / 2 < fs.getD (i + 1) 0)) ∧
        (∀ j, j < i →
          (((top - bottom) / 2 < fs.getD j 0) ↔ ((top - bottom) / 2 < fs.getD (j + 1) 0))) ∧
        midpointGuess cs fs slope top bottom = (cs.getD i 0 + cs.getD (i + 1) 0) / 2) := by
  refine ⟨?_, ?_, ?_⟩
  · intro hall
    have hcond : (fs.all fun f => decide ((top - bottom) / 2 < f)) = true := by
      simp only [List.all_eq_true, decide_eq_true_iff]
      exact hall
    rw [midpointGuess, if_pos hcond]
  · intro hne hall
    obtain ⟨f0, hf0⟩ := List.exists_mem_of_ne_nil fs hne
    have hcond1 : ¬((fs.all fun f => decide ((top - bottom) / 2 < f)) = true) := by
      simp only [List.all_eq_true, decide_eq_true_iff]
      intro hc
      exact absurd (hc f0 hf0) (not_lt.mpr (hall f0 hf0))
    have hcond2 : (fs.all fun f => decide (f ≤ (top - bottom) / 2)) = true := by
      simp only [List.all_eq_true, decide_eq_true_iff]
      exact hall
    rw [midpointGuess, if_neg hcond1, if_pos hcond2]
  · intro h1 h2
    obtain ⟨fa, hfa, hfa2⟩ := h1
    obtain ⟨fb, hfb, hfb2⟩ := h2
    set midval := (top - bottom) / 2 with hmv
    set bs : List Bool := fs.map fun f => decide (midval < f) with hbs
    have hbslen : bs.length = fs.length := by simp [hbs]
    have hgd : ∀ j, j < fs.length → bs.getD j false = decide (midval < fs.getD j 0) := by
      intro j hj
      rw [getDlt _ _ _ (by simpa [hbslen] using hj), getDlt _ _ _ hj]
      simp [hbs]
    have htmem : true ∈ bs := by
      simp only [hbs, List.mem_map]
      exact ⟨fa, hfa, by simpa using hfa2⟩
    have hfmem : false ∈ bs := by
      simp only [hbs, List.mem_map]
      exact ⟨fb, hfb, by simpa using not_lt.mpr hfb2⟩
    obtain ⟨hb1, hb2, hb3⟩ := argmaxBool_adjacentNe bs htmem hfmem
    refine ⟨argmaxBool (adjacentNe bs), by omega, ?_, ?_, ?_⟩
    · rw [hgd _ (by omega), hgd _ (by omega)] at hb2
      intro hiff
      exact hb2 (decide_eq_decide.mpr hiff)
    · intro j hj
      have := hb3 j hj
      rw [hgd _ (by omega), hgd _ (by omega)] at this
      exact decide_eq_decide.mp this
    · have hcond1 : ¬((fs.all fun f => decide (midval < f)) = true) := by
        simp only [List.all_eq_true, decide_eq_true_iff]
        intro hc
        exact absurd (hc fb hfb) (not_lt.mpr hfb2)
      have hcond2 : ¬((fs.all fun f => decide (f ≤ midval)) = true) := by
        simp only [List.all_eq_true, decide_eq_true_iff]
        intro hc
        exact absurd hfa2 (not_lt.mpr (hc fa hfa))
      rw [midpointGuess, if_neg hcond1, if_neg hcond2]

/-- C4 (witness): the amended theorem at responses [9/10, 2/5, 1/10]
over concentrations [1, 4, 8] with guessed top 1, bottom 0, slope 3/2:
midval = 1/2, the responses cross between indices 0 and 1, and the
guess is (1 + 4)/2 = 5/2. -/
theorem C4_midpoint_guess_witness :
    ∃ i, i + 1 < ([9/10, 2/5, 1/10] : List ℚ).length ∧
      ¬((((1 : ℚ) - 0) / 2 < ([9/10, 2/5, 1/10] : List ℚ).getD i 0) ↔
        (((1 : ℚ) - 0) / 2 < ([9/10, 2/5, 1/10] : List ℚ).getD (i + 1) 0)) ∧
      (∀ j, j < i →
        ((((1 : ℚ) - 0) / 2 < ([9/10, 2/5, 1/10] : List ℚ).getD j 0) ↔
          (((1 : ℚ) - 0) / 2 < ([9/10, 2/5, 1/10] : List ℚ).getD (j + 1) 0))) ∧
      midpointGuess [1, 4, 8] [9/10, 2/5, 1/10] (3/2) 1 0 =
        (([1, 4, 8] : List ℚ).getD i 0 + ([1, 4, 8] : List ℚ).getD (i + 1) 0) / 2 :=
  (C4_midpoint_guess [1, 4, 8] [9/10, 2/5, 1/10] (3/2) 1 0).2.2
    ⟨9/10, by simp, by norm_num⟩ ⟨2/5, by simp, by norm_num⟩

/-! ### `concentrationRange` (hillcurve.py lines 565-611). -/

/-- `numpy.linspace(a, b, n)` with the endpoint included: `n` evenly
spaced points from `a` to `b` (`[a]` for `n = 1`, `[]` for `n = 0`). -/
noncomputable def linspace (a b : ℝ) (n : ℕ) : List ℝ :=
  if n = 0 then []
  else if n = 1 then [a]
  else (List.range n).map fun i : ℕ => a + (b - a) * (i : ℝ) / ((n : ℝ) - 1)

/-- `scipy.logspace(a, b, n) = 10 ** linspace(a, b, n)`. -/
noncomputable def logspace (a b : ℝ) (n : ℕ) : List ℝ :=
  (linspace a b n).map fun x => (10 : ℝ) ^ x

/-- `concentrationRange(bottom, top, npoints, extend)` (hillcurve.py
lines 565-611): validate the bounds, move to log10 space, widen each
side by `extend` times the log-range, and return the log-spaced points. -/
noncomputable def concentrationRange (bottom top : ℝ) (npoints : ℕ) (extend : ℝ) :
    Except String (List ℝ) :=
  if top ≤ bottom then Except.error "`bottom` must be less than `top`"
  else if bottom ≤ 0 then Except.error "`bottom` must be greater than zero"
  else if extend < 0 then Except.error "`extend` must be >= 0"
  else
    let logbottom := Real.logb 10 bottom
    let logtop := Real.logb 10 top
    let logrange := logtop - logbottom
    Except.ok (logspace (logbottom - logrange * extend)
      (logtop + logrange * extend) npoints)
theorem linspace_length (a b : ℝ) (n : ℕ) : (linspace a b n).length = n := by
  rw [linspace]
  by_cases h0 : n = 0
  · rw [if_pos h0, h0]
    rfl
  · rw [if_neg h0]
    by_cases h1 : n = 1
    · rw [if_pos h1, h1]
      rfl
    · rw [if_neg h1, List.length_map, List.length_range]

theorem linspace_getD (a b : ℝ) (n : ℕ) (hn : 2 ≤ n) (i : ℕ) (hi : i < n) :
    (linspace a b n).getD i 0 = a + (b - a) * i / (n - 1) := by
  rw [linspace, if_neg (by omega), if_neg (by omega),
    getDlt _ _ _ (by simpa using hi)]
  simp

theorem headDgetD {α : Type} (l : List α) (d : α) : l.headD d = l.getD 0 d := by
  cases l <;> rfl

theorem getLastDgetD {α : Type} (l : List α) (d : α) :
    l.getLastD d = l.getD (l.length - 1) d := by
  rw [List.getLastD_eq_getLast?, List.getLast?_eq_getElem?, List.getD_eq_getElem?_getD]

theorem logspace_getD (a b : ℝ) (n : ℕ) (hn : 2 ≤ n) (i : ℕ) (hi : i < n) :
    (logspace a b n).getD i 0 = (10 : ℝ) ^ (a + (b - a) * i / (n - 1)) := by
  rw [logspace, getDlt _ _ _ (by simpa [List.length_map, linspace_length] using hi),
    List.getElem_map]
  congr 1
  have h := linspace_getD a b n hn i hi
  rw [getDlt _ _ _ (by simpa [linspace_length] using hi)] at h
  exact h

/-- C8 (confirmed): `concentrationRange` fails whenever `low ≥ high` or
`low ≤ 0`; on every valid input (`low < high`, `low > 0`, `extend ≥ 0`)
it returns exactly `npoints` concentrations, consecutive points have the
constant log10-step `(1 + 2·extend)·(log10 high − log10 low)/(npoints−1)`,
and (when `npoints ≥ 2`) the first and last points are the bounds of
`[low, high]` widened in log10 space by `extend` times the log-range on
each side, so the sequence covers `[low, high]`. -/
theorem C8_concentrationRange (bottom top : ℝ) (npoints : ℕ) (extend : ℝ) :
    ((top ≤ bottom ∨ bottom ≤ 0) →
      ∃ e, concentrationRange bottom top npoints extend = Except.error e) ∧
    (bottom < top → 0 < bottom → 0 ≤ extend →
      ∃ l, concentrationRange bottom top npoints extend = Except.ok l ∧
        l.length = npoints ∧
        (∀ i, i + 1 < npoints →
          Real.logb 10 (l.getD (i + 1) 0) - Real.logb 10 (l.getD i 0) =
            (1 + 2 * extend) * (Real.logb 10 top - Real.logb 10 bottom) /
              ((npoints : ℝ) - 1)) ∧
        (2 ≤ npoints →
          l.headD 0 = 10 ^ (Real.logb 10 bottom -
              (Real.logb 10 top - Real.logb 10 bottom) * extend) ∧
          l.getLastD 0 = 10 ^ (Real.logb 10 top +
              (Real.logb 10 top - Real.logb 10 bottom) * extend) ∧
          l.headD 0 ≤ bottom ∧ top ≤ l.getLastD 0)) := by
  constructor
  · rintro (h | h)
    · exact ⟨_, by rw [concentrationRange, if_pos h]⟩
    · by_cases h1 : top ≤ bottom
      · exact ⟨_, by rw [concentrationRange, if_pos h1]⟩
      · exact ⟨_, by rw [concentrationRange, if_neg h1, if_pos h]⟩
  · intro hbt hb0 hext
    have h10 : (1 : ℝ) < 10 := by norm_num
    set lb := Real.logb 10 bottom with hlb
    set lt := Real.logb 10 top with hlt
    set a := lb - (lt - lb) * extend with ha
    set b := lt + (lt - lb) * extend with hbdef
    have hok : concentrationRange bottom top npoints extend =
        Except.ok (logspace a b npoints) := by
      rw [concentrationRange, if_neg (not_le.mpr hbt), if_neg (not_le.mpr hb0),
        if_neg (not_lt.mpr hext)]
    have hlen : (logspace a b npoints).length = npoints := by
      rw [logspace, List.length_map, linspace_length]
    have hrange : lb < lt := Real.logb_lt_logb h10 hb0 hbt
    refine ⟨logspace a b npoints, hok, hlen, ?_, ?_⟩
    · intro i hi
      have hn2 : 2 ≤ npoints := by omega
      rw [logspace_getD a b npoints hn2 (i + 1) (by omega),
        logspace_getD a b npoints hn2 i (by omega),
        Real.logb_rpow (by norm_num) (by norm_num),
        Real.logb_rpow (by norm_num) (by norm_num)]
      have hne : ((npoints : ℝ) - 1) ≠ 0 := by
        have h2r : (2 : ℝ) ≤ (npoints : ℝ) := by exact_mod_cast hn2
        intro hc
        nlinarith
      have hba : b - a = (1 + 2 * extend) * (lt - lb) := by
        rw [ha, hbdef]
        ring
      have hd : (a + (b - a) * ((i : ℝ) + 1) / ((npoints : ℝ) - 1)) -
          (a + (b - a) * (i : ℝ) / ((npoints : ℝ) - 1)) =
          (b - a) / ((npoints : ℝ) - 1) := by
        field_simp
        ring
      push_cast
      rw [hd, hba]
    · intro hn2
      have hne : ((npoints : ℝ) - 1) ≠ 0 := by
        have h2r : (2 : ℝ) ≤ (npoints : ℝ) := by exact_mod_cast hn2
        intro hc
        nlinarith
      have hhead : (logspace a b npoints).headD 0 = (10 : ℝ) ^ a := by
        rw [headDgetD, logspace_getD a b npoints hn2 0 (by omega)]
        norm_num
      have hlast : (logspace a b npoints).getLastD 0 = (10 : ℝ) ^ b := by
        rw [getLastDgetD, hlen, logspace_getD a b npoints hn2 (npoints - 1) (by omega)]
        congr 1
        have hcast : (((npoints - 1 : ℕ)) : ℝ) = (npoints : ℝ) - 1 := by
          have h1n : 1 ≤ npoints := by omega
          push_cast [h1n]
          ring
        rw [hcast]
        field_simp
      refine ⟨hhead, hlast, ?_, ?_⟩
      · rw [hhead]
        have hstep : a ≤ lb := by
          rw [ha]
          nlinarith
        calc (10 : ℝ) ^ a ≤ (10 : ℝ) ^ lb := (Real.rpow_le_rpow_left_iff h10).mpr hstep
          _ = bottom := Real.rpow_logb (by norm_num) (by norm_num) hb0
      · rw [hlast]
        have hstep : lt ≤ b := by
          rw [hbdef]
          nlinarith
        calc top = (10 : ℝ) ^ lt :=
              (Real.rpow_logb (by norm_num) (by norm_num) (lt_trans hb0 hbt)).symm
          _ ≤ (10 : ℝ) ^ b := (Real.rpow_le_rpow_left_iff h10).mpr hstep

/-- C8 (witness): the theorem at `low = 1`, `high = 10`, `npoints = 2`,
`extend = 0`, and the error case at `low = high = 1`. -/
theorem C8_concentrationRange_witness :
    (∃ e, concentrationRange 1 1 2 0 = Except.error e) ∧
    (∃ l, concentrationRange 1 10 2 0 = Except.ok l ∧
      l.length = 2 ∧
      (∀ i, i + 1 < 2 →
        Real.logb 10 (l.getD (i + 1) 0) - Real.logb 10 (l.getD i 0) =
          (1 + 2 * 0) * (Real.logb 10 10 - Real.logb 10 1) / ((2 : ℝ) - 1)) ∧
      (2 ≤ 2 →
        l.headD 0 = 10 ^ (Real.logb 10 1 - (Real.logb 10 10 - Real.logb 10 1) * 0) ∧
        l.getLastD 0 = 10 ^ (Real.logb 10 10 + (Real.logb 10 10 - Real.logb 10 1) * 0) ∧
        l.headD 0 ≤ 1 ∧ (10 : ℝ) ≤ l.getLastD 0)) :=
  ⟨(C8_concentrationRange 1 1 2 0).1 (Or.inl le_rfl),
   (C8_concentrationRange 1 10 2 0).2 (by norm_num) (by norm_num) (by norm_num)⟩

end Neutcurve

namespace Neutcurve

/-! ### `CurveFits.__init__` validation (curvefits.py lines 103-139). -/

/-- One tidy measurement row of the input data frame, after column
selection: (serum, virus, replicate, concentration, fraction
infectivity).  Concentrations and responses are idealized as `ℚ`. -/
structure DataRow where
  serum : String
  virus : String
  replicate : String
  conc : ℚ
  frac : ℚ
deriving DecidableEq, Repr

/-- `pandas.Series.unique()`: the distinct values in order of first
occurrence. -/
def uniqueFirst {α : Type} [DecidableEq α] (l : List α) : List α :=
  l.foldl (fun acc x => if x ∈ acc then acc else acc ++ [x]) []

/-- Insert into a sorted list (ascending). -/
def insertSorted (x : ℚ) : List ℚ → List ℚ
  | [] => [x]
  | y :: ys => if x ≤ y then x :: y :: ys else y :: insertSorted x ys

/-- `pandas.Series.sort_values().tolist()`: ascending insertion sort. -/
def sortConcs (l : List ℚ) : List ℚ := l.foldr insertSorted []

/-- The loop body over `rep1` (with its nested loop over the later
replicates `rep2`) of curvefits.py lines 119-139.  Faithful to the code,
including the slip on line 131: `conc2` is recomputed by querying `rep1`
again, so it always equals `conc1`. -/
def checkConcPairs (virusData : List DataRow) (serum virus : String) :
    List String → Except String Unit
  | [] => Except.ok ()
  | rep1 :: rest =>
      let conc1 := sortConcs ((virusData.filter fun r => r.replicate = rep1).map (·.conc))
      if conc1.length ≠ (uniqueFirst conc1).length then
        Except.error ("duplicate concentrations for " ++ serum ++ ", " ++ virus ++
          ", " ++ rep1)
      else
        match rest.findSome? (fun rep2 =>
            let conc2 := sortConcs
              ((virusData.filter fun r => r.replicate = rep1).map (·.conc))
            if conc1 ≠ conc2 then some rep2 else none) with
        | some rep2 => Except.error ("replicates " ++ rep1 ++ " and " ++ rep2 ++
            " have different concentrations for " ++ serum ++ ", " ++ virus)
        | none => checkConcPairs virusData serum virus rest

/-- The validation pass of `CurveFits.__init__` over sera, viruses and
replicates (curvefits.py lines 103-139): reject a replicate literally
named `'average'`, reject duplicate concentrations within one replicate,
and (intendedly) reject replicates of one (serum, virus) with differing
concentration sets. -/
def checkCurveFits (data : List DataRow) : Except String Unit := do
  let sera := uniqueFirst (data.map (·.serum))
  sera.forM fun serum => do
    let serumData := data.filter fun r => r.serum = serum
    let serumViruses := uniqueFirst (serumData.map (·.virus))
    serumViruses.forM fun virus => do
      let virusData := serumData.filter fun r => r.virus = virus
      let virusReps := uniqueFirst (virusData.map (·.replicate))
      if "average" ∈ virusReps then
        Except.error "A replicate is named average. This is not allowed."
      else
        checkConcPairs virusData serum virus virusReps

/-- A dataset in which replicates `r1` and `r2` of the same serum and
virus have different concentration sets: r1 measures at 1 and 2,
r2 at 1 and 3. -/
def mismatchData : List DataRow :=
  [⟨"s", "v", "r1", 1, 1⟩, ⟨"s", "v", "r1", 2, 0⟩,
   ⟨"s", "v", "r2", 1, 1⟩, ⟨"s", "v", "r2", 3, 0⟩]

/-- C2 (code bug): the two replicates of `mismatchData` have different
sorted concentration lists ([1,2] vs [1,3]), yet construction-time
validation succeeds: line 131 of curvefits.py recomputes `conc2` by
querying `rep1` instead of `rep2`, so the mismatched-concentrations
`ValueError` can never fire, contradicting the class docstring
("Replicates must all have the same concentrations for each serum /
virus combination") and the claim. -/
theorem C2_mismatch_accepted :
    checkCurveFits mismatchData = Except.ok () ∧
    sortConcs ((mismatchData.filter fun r => r.replicate = "r1").map (·.conc)) ≠
      sortConcs ((mismatchData.filter fun r => r.replicate = "r2").map (·.conc)) := by
  constructor
  · rfl
  · decide

end Neutcurve

namespace Neutcurve

/-! ### The `CurveFits` state: `df` construction, `getCurve` caching
(curvefits.py lines 141-211) and `fitParams` (lines 213-283).

The scipy optimizer inside the `HillCurve` constructor is an external
collaborator; the fitted-curve type is therefore an abstract type `κ`
with the operations `CurveFits` reads off a curve collected in a
`FitEngine`.  Everything the claims speak about — the synthesized
'stderr' column, the slicing, the per-key cache, the parameter table and
its cache — is modelled concretely. -/

/-- A row of `CurveFits.df` after construction: the five selected
columns plus the synthesized 'stderr' column.  An absent (NaN) standard
error is `none`; the value a present one carries is a real number. -/
structure DfRow where
  serum : String
  virus : String
  replicate : String
  conc : ℚ
  frac : ℚ
  stderr : Option ℝ

/-- Mean of the sample values (`pandas` groupby-'mean'). -/
def meanQ (l : List ℚ) : ℚ := l.sum / l.length

/-- Standard error of the mean (`pandas` groupby-'sem', ddof = 1):
`sqrt(Σ (x - mean)² / ((n - 1) · n))`. -/
noncomputable def semR (l : List ℚ) : ℝ :=
  Real.sqrt ((l.map fun x => ((x : ℝ) - (meanQ l : ℝ)) ^ 2).sum /
    (((l.length : ℝ) - 1) * (l.length : ℝ)))

/-- The fraction-infectivity values of one (serum, virus, concentration)
group. -/
def groupFracs (data : List DataRow) (k : String × String × ℚ) : List ℚ :=
  (data.filter fun r =>
    r.serum = k.1 ∧ r.virus = k.2.1 ∧ r.conc = k.2.2).map (·.frac)

/-- The replicate-average rows (curvefits.py lines 144-154): group the
raw rows by (serum, virus, concentration); per group record the mean
fraction infectivity, the standard error of the mean (NaN — `none` —
when fewer than two rows contribute), and replicate `'average'`.
(Group keys are taken in first-occurrence order; no claim depends on the
groupby key ordering.) -/
noncomputable def avgRows (data : List DataRow) : List DfRow :=
  (uniqueFirst (data.map fun r => (r.serum, r.virus, r.conc))).map fun k =>
    { serum := k.1, virus := k.2.1, replicate := "average", conc := k.2.2,
      frac := meanQ (groupFracs data k),
      stderr := if 2 ≤ (groupFracs data k).length then
        some (semR (groupFracs data k)) else none }

/-- `CurveFits.df` after construction (curvefits.py lines 155-158): the
raw rows — whose 'stderr' entries are NaN after the concat — followed by
the synthesized average rows. -/
noncomputable def buildDf (data : List DataRow) : List DfRow :=
  (data.map fun r =>
    ({ serum := r.serum, virus := r.virus, replicate := r.replicate,
       conc := r.conc, frac := r.frac, stderr := none } : DfRow)) ++
  avgRows data

/-- The operations `CurveFits` invokes on a fitted curve: the
constructor (concentrations, responses, optional standard errors — the
fixed top/bottom policy is the manager's and is uniform), the three
IC50 accessors (which may raise), and the four fitted parameters. -/
structure FitEngine (κ : Type) where
  fit : List ℚ → List ℚ → Option (List ℝ) → κ
  ic50B : κ → Except String ℝ
  ic50Bd : κ → Except String String
  ic50S : κ → Except String String
  midpointOf : κ → ℝ
  slopeOf : κ → ℝ
  topOf : κ → ℝ
  bottomOf : κ → ℝ

/-- A parameter-table row assembled by `fitParams` (curvefits.py lines
244-275): `nreplicates` is nullable (populated only on 'average' rows). -/
structure ParamRow where
  serum : String
  virus : String
  replicate : String
  nreplicates : Option ℕ
  ic50 : ℝ
  ic50_bound : String
  ic50_str : String
  midpoint : ℝ
  slope : ℝ
  top : ℝ
  bottom : ℝ

/-- The state of a `CurveFits` after construction: the derived indices,
the data frame, the per-key curve cache `_hillcurves` (an association
list standing for the Python dict), the `_fitparams` cache, and a fit
counter observing each curve construction (the call-count
instrumentation of the spec). -/
structure CurveFits (κ : Type) where
  sera : List String
  viruses : String → List String
  replicates : String × String → List String
  df : List DfRow
  hillcurves : List ((String × String × String) × κ)
  fitparams : Option (List ParamRow)
  fitCount : ℕ

/-- Dictionary lookup in the cache association list. -/
def lookup {β : Type} (k : String × String × String) :
    List ((String × String × String) × β) → Option β
  | [] => none
  | (k', v) :: rest => if k = k' then some v else lookup k rest

/-- The 'stderr' column handling of `getCurve` (curvefits.py lines
195-200): all entries NaN → unweighted fit (`none`); a strict mix →
`RuntimeError`; otherwise pass the column through. -/
def stderrCol (idata : List DfRow) : Except String (Option (List ℝ)) :=
  if idata.all fun r => r.stderr.isNone then Except.ok none
  else if idata.any fun r => r.stderr.isNone then
    Except.error "`stderr` has some but not all entries NaN"
  else Except.ok (some (idata.filterMap (·.stderr)))

/-- The standard-error argument `getCurve` would pass to the curve
constructor for a key: the 'stderr' column of the rows sliced for that
key, through `stderrCol`. -/
def stderrArgOf (df : List DfRow) (serum virus replicate : String) :
    Except String (Option (List ℝ)) :=
  stderrCol (df.filter fun r =>
    r.serum = serum ∧ r.virus = virus ∧ r.replicate = replicate)

/-- `CurveFits.getCurve` (curvefits.py lines 163-211): on a cache miss,
validate the key, slice the data frame, resolve the 'stderr' column,
construct (fit) the curve and cache it under the full key; on a hit,
return the cached instance unchanged. -/
def getCurve {κ : Type} (E : FitEngine κ) (st : CurveFits κ)
    (serum virus replicate : String) : Except String (κ × CurveFits κ) :=
  match lookup (serum, virus, replicate) st.hillcurves with
  | some c => Except.ok (c, st)
  | none =>
      if serum ∉ st.sera then
        Except.error ("invalid `serum` of " ++ serum)
      else if virus ∉ st.viruses serum then
        Except.error ("invalid `virus` of " ++ virus)
      else if replicate ∉ st.replicates (serum, virus) then
        Except.error ("invalid `replicate` of " ++ replicate)
      else
        let idata := st.df.filter fun r =>
          r.serum = serum ∧ r.virus = virus ∧ r.replicate = replicate
        match stderrCol idata with
        | Except.error e => Except.error e
        | Except.ok fs_stderr =>
            let curve := E.fit (idata.map (·.conc)) (idata.map (·.frac)) fs_stderr
            Except.ok (curve,
              { st with
                hillcurves := ((serum, virus, replicate), curve) :: st.hillcurves,
                fitCount := st.fitCount + 1 })

/-- Every (serum, virus, replicate) key, in the iteration order of
`fitParams`: sera, then the serum's viruses, then the pair's replicates
('average' included, appended last at construction). -/
def allKeys {κ : Type} (st : CurveFits κ) : List (String × String × String) :=
  st.sera.flatMap fun serum =>
    (st.viruses serum).flatMap fun virus =>
      (st.replicates (serum, virus)).map fun replicate => (serum, virus, replicate)

/-- One row of the parameter table (curvefits.py lines 256-267):
`nreplicates` populated only on the 'average' row; the IC50 accessors
may raise, and their exceptions propagate out of `fitParams`. -/
def mkRow {κ : Type} (E : FitEngine κ) (serum virus replicate : String)
    (nreps : ℕ) (c : κ) : Except String ParamRow := do
  let i50 ← E.ic50B c
  let i50bd ← E.ic50Bd c
  let i50s ← E.ic50S c
  Except.ok
    { serum := serum, virus := virus, replicate := replicate,
      nreplicates := (if replicate = "average" then some nreps else none),
      ic50 := i50, ic50_bound := i50bd, ic50_str := i50s,
      midpoint := E.midpointOf c, slope := E.slopeOf c,
      top := E.topOf c, bottom := E.bottomOf c }

/-- The row-building loop of `fitParams` (curvefits.py lines 246-267),
threading the curve cache through `getCurve`. -/
def buildRows {κ : Type} (E : FitEngine κ) :
    CurveFits κ → List (String × String × String) →
    Except String (List ParamRow × CurveFits κ)
  | st, [] => Except.ok ([], st)
  | st, (serum, virus, replicate) :: rest => do
      let (c, st1) ← getCurve E st serum virus replicate
      let nreps := ((st.replicates (serum, virus)).filter fun x =>
        x ≠ "average").length
      let row ← mkRow E serum virus replicate nreps c
      let (rows, st2) ← buildRows E st1 rest
      Except.ok (row :: rows, st2)

/-- `CurveFits.fitParams` (curvefits.py lines 213-283): build and cache
the full table on the first call; on every call return the cached table,
filtered to the 'average' rows when `average_only`. -/
def fitParams {κ : Type} (E : FitEngine κ) (st : CurveFits κ)
    (average_only : Bool) : Except String (List ParamRow × CurveFits κ) :=
  match st.fitparams with
  | some tbl =>
      Except.ok ((if average_only then tbl.filter fun r =>
        r.replicate = "average" else tbl), st)
  | none => do
      let (tbl, st1) ← buildRows E st (allKeys st)
      Except.ok ((if average_only then tbl.filter fun r =>
        r.replicate = "average" else tbl),
        { st1 with fitparams := some tbl })

end Neutcurve

namespace Neutcurve

theorem lookup_cons_self {β : Type} (k : String × String × String) (v : β)
    (l : List ((String × String × String) × β)) :
    lookup k ((k, v) :: l) = some v := by
  rw [lookup, if_pos rfl]

theorem lookup_cons_ne {β : Type} (k k' : String × String × String) (v : β)
    (l : List ((String × String × String) × β)) (h : k' ≠ k) :
    lookup k' ((k, v) :: l) = lookup k' l := by
  rw [lookup, if_neg h]

/-- The two ways a `getCurve` call can succeed: a cache hit returning the
cached curve with the state untouched, or a cache miss that validates,
fits, bumps the fit counter and prepends exactly one binding — for its
own key — to the cache. -/
theorem getCurve_ok_cases {κ : Type} (E : FitEngine κ) (st : CurveFits κ)
    (serum virus replicate : String) (c : κ) (st' : CurveFits κ)
    (h : getCurve E st serum virus replicate = Except.ok (c, st')) :
    (lookup (serum, virus, replicate) st.hillcurves = some c ∧ st' = st) ∨
    (lookup (serum, virus, replicate) st.hillcurves = none ∧
      st' = { st with
        hillcurves := ((serum, virus, replicate), c) :: st.hillcurves,
        fitCount := st.fitCount + 1 }) := by
  cases hl : lookup (serum, virus, replicate) st.hillcurves with
  | some c0 =>
      left
      rw [getCurve, hl] at h
      simp only [Except.ok.injEq, Prod.mk.injEq] at h
      exact ⟨congrArg some h.1, h.2.symm⟩
  | none =>
      right
      rw [getCurve, hl] at h
      by_cases h1 : serum ∉ st.sera
      · rw [if_pos h1] at h
        exact Except.noConfusion h
      rw [if_neg h1] at h
      by_cases h2 : virus ∉ st.viruses serum
      · rw [if_pos h2] at h
        exact Except.noConfusion h
      rw [if_neg h2] at h
      by_cases h3 : replicate ∉ st.replicates (serum, virus)
      · rw [if_pos h3] at h
        exact Except.noConfusion h
      rw [if_neg h3] at h
      cases hs : stderrCol (st.df.filter fun r =>
          r.serum = serum ∧ r.virus = virus ∧ r.replicate = replicate) with
      | error e =>
          simp only [hs] at h
          exact Except.noConfusion h
      | ok fs_stderr =>
          simp only [hs, Except.ok.injEq, Prod.mk.injEq] at h
          obtain ⟨hc, hst⟩ := h
          subst hc
          exact ⟨rfl, hst.symm⟩

/-- C6 (confirmed): after a successful `getCurve` call produced curve `c`
and state `st1`, a second call with the identical key returns exactly the
cached `c` with the state unchanged — no new curve is constructed (the
fit counter and cache of `st1` are untouched) — and the call has bound
only its own key: every other key's cache entry is exactly as before, so
distinct keys never share a cache entry. -/
theorem C6_getCurve_cached {κ : Type} (E : FitEngine κ) (st : CurveFits κ)
    (serum virus replicate : String) (c : κ) (st1 : CurveFits κ)
    (h : getCurve E st serum virus replicate = Except.ok (c, st1)) :
    getCurve E st1 serum virus replicate = Except.ok (c, st1) ∧
    lookup (serum, virus, replicate) st1.hillcurves = some c ∧
    ∀ k', k' ≠ (serum, virus, replicate) →
      lookup k' st1.hillcurves = lookup k' st.hillcurves := by
  rcases getCurve_ok_cases E st serum virus replicate c st1 h with
    ⟨hl, rfl⟩ | ⟨hl, rfl⟩
  · exact ⟨by rw [getCurve, hl], hl, fun k' _ => rfl⟩
  · refine ⟨?_, ?_, ?_⟩
    · rw [getCurve]
      rw [show ({ st with
          hillcurves := ((serum, virus, replicate), c) :: st.hillcurves,
          fitCount := st.fitCount + 1 } : CurveFits κ).hillcurves =
        ((serum, virus, replicate), c) :: st.hillcurves from rfl]
      rw [lookup_cons_self]
    · exact lookup_cons_self _ c st.hillcurves
    · intro k' hk'
      exact lookup_cons_ne _ k' c st.hillcurves hk'

/-- A trivial fit engine over the unit curve type, for concrete
instances. -/
def unitEngine : FitEngine Unit :=
  { fit := fun _ _ _ => (), ic50B := fun _ => Except.ok 0,
    ic50Bd := fun _ => Except.ok "interpolated",
    ic50S := fun _ => Except.ok "0",
    midpointOf := fun _ => 0, slopeOf := fun _ => 0,
    topOf := fun _ => 0, bottomOf := fun _ => 0 }

/-- A concrete one-serum, one-virus, one-replicate `CurveFits` state with
an empty cache. -/
def smallFits : CurveFits Unit :=
  { sera := ["s"], viruses := fun _ => ["v"],
    replicates := fun _ => ["r", "average"],
    df := [{ serum := "s", virus := "v", replicate := "r",
             conc := 1, frac := 1, stderr := none }],
    hillcurves := [], fitparams := none, fitCount := 0 }

/-- `smallFits` after its one curve has been fitted and cached. -/
def smallFits1 : CurveFits Unit :=
  { smallFits with hillcurves := [(("s", "v", "r"), ())], fitCount := 1 }

/-- C6 (witness): the caching theorem at the concrete one-key state. -/
theorem C6_getCurve_cached_witness :
    getCurve unitEngine smallFits1 "s" "v" "r" = Except.ok ((), smallFits1) ∧
    lookup ("s", "v", "r") smallFits1.hillcurves = some () ∧
    ∀ k', k' ≠ ("s", "v", "r") →
      lookup k' smallFits1.hillcurves = lookup k' smallFits.hillcurves :=
  C6_getCurve_cached unitEngine smallFits "s" "v" "r" () smallFits1 rfl

end Neutcurve

namespace Neutcurve

/-- If every sliced row's 'stderr' is NaN, `getCurve` resolves the
standard errors to `None` (unweighted fit). -/
theorem stderrCol_all_none (idata : List DfRow)
    (h : ∀ r ∈ idata, r.stderr = none) : stderrCol idata = Except.ok none := by
  have hc : (idata.all fun r => r.stderr.isNone) = true := by
    rw [List.all_eq_true]
    intro r hr
    rw [h r hr]
    rfl
  rw [stderrCol, if_pos hc]

/-- Shape of a synthesized average row: replicate `'average'`, and a
'stderr' present exactly when at least two rows contribute to its
(serum, virus, concentration) group. -/
theorem mem_avgRows (data : List DataRow) (row : DfRow)
    (h : row ∈ avgRows data) :
    row.replicate = "average" ∧
    ∃ k : String × String × ℚ, row.serum = k.1 ∧ row.virus = k.2.1 ∧
      row.stderr = (if 2 ≤ (groupFracs data k).length then
        some (semR (groupFracs data k)) else none) := by
  rw [avgRows] at h
  obtain ⟨k, hk, hrow⟩ := List.mem_map.mp h
  rw [← hrow]
  exact ⟨rfl, k, rfl, rfl, rfl⟩

/-- C9 (confirmed): a `getCurve` slice for a replicate other than
`'average'` sees only raw rows, whose synthesized 'stderr' entries are
all NaN, so the curve is always fit unweighted (`fs_stderr = None`);
and the `'average'` slice of a cohort in which no two rows share a
(serum, virus, concentration) — in particular a cohort with a single
contributing replicate and no repeated concentration — has every group
of size one, its standard errors are all NaN, and it is likewise fit
unweighted. -/
theorem C9_unweighted (data : List DataRow) (serum virus replicate : String) :
    (replicate ≠ "average" →
      stderrArgOf (buildDf data) serum virus replicate = Except.ok none) ∧
    (∀ rep0 : String,
      (∀ r ∈ data, r.serum = serum → r.virus = virus → r.replicate = rep0) →
      (∀ c : ℚ, (data.filter fun r =>
        r.serum = serum ∧ r.virus = virus ∧ r.conc = c).length ≤ 1) →
      stderrArgOf (buildDf data) serum virus "average" = Except.ok none) := by
  constructor
  · intro hrep
    rw [stderrArgOf]
    apply stderrCol_all_none
    intro r hr
    rw [List.mem_filter] at hr
    obtain ⟨hmem, hpred⟩ := hr
    simp only [decide_eq_true_eq] at hpred
    rw [buildDf, List.mem_append] at hmem
    rcases hmem with hraw | havg
    · obtain ⟨r0, hr0, heq⟩ := List.mem_map.mp hraw
      rw [← heq]
    · exact absurd (hpred.2.2.symm.trans (mem_avgRows data r havg).1) hrep
  · intro rep0 h1 h2
    rw [stderrArgOf]
    apply stderrCol_all_none
    intro r hr
    rw [List.mem_filter] at hr
    obtain ⟨hmem, hpred⟩ := hr
    simp only [decide_eq_true_eq] at hpred
    rw [buildDf, List.mem_append] at hmem
    rcases hmem with hraw | havg
    · obtain ⟨r0, hr0, heq⟩ := List.mem_map.mp hraw
      rw [← heq]
    · obtain ⟨-, k, hk1, hk2, hst⟩ := mem_avgRows data r havg
      obtain ⟨k1, k2, k3⟩ := k
      have e1 : k1 = serum := hk1.symm.trans hpred.1
      have e2 : k2 = virus := hk2.symm.trans hpred.2.1
      have hlen : (groupFracs data (k1, k2, k3)).length ≤ 1 := by
        rw [e1, e2]
        simp only [groupFracs, List.length_map]
        exact h2 k3
      rw [hst, if_neg (by omega)]

/-- The raw data behind `smallFits`: one serum, one virus, one replicate,
one concentration. -/
def smallData : List DataRow := [⟨"s", "v", "r", 1, 1⟩]

/-- C9 (witness): on the one-replicate dataset, both the raw-replicate
slice and the average slice are fit unweighted. -/
theorem C9_unweighted_witness :
    stderrArgOf (buildDf smallData) "s" "v" "r" = Except.ok none ∧
    stderrArgOf (buildDf smallData) "s" "v" "average" = Except.ok none :=
  ⟨(C9_unweighted smallData "s" "v" "r").1 (by decide),
   (C9_unweighted smallData "s" "v" "average").2 "r"
     (fun r hr _ _ => by
       have hh : r = ⟨"s", "v", "r", 1, 1⟩ := by simpa [smallData] using hr
       rw [hh])
     (fun _ => List.length_filter_le _ _)⟩

end Neutcurve

namespace Neutcurve

/-- `getCurve` never changes the indices, the data frame, or the
parameter-table cache — only the curve cache and the fit counter. -/
theorem getCurve_preserves {κ : Type} (E : FitEngine κ) (st : CurveFits κ)
    (serum virus replicate : String) (c : κ) (st' : CurveFits κ)
    (h : getCurve E st serum virus replicate = Except.ok (c, st')) :
    st'.sera = st.sera ∧ st'.viruses = st.viruses ∧
    st'.replicates = st.replicates ∧ st'.df = st.df ∧
    st'.fitparams = st.fitparams := by
  rcases getCurve_ok_cases E st serum virus replicate c st' h with
    ⟨-, rfl⟩ | ⟨-, rfl⟩
  · exact ⟨rfl, rfl, rfl, rfl, rfl⟩
  · exact ⟨rfl, rfl, rfl, rfl, rfl⟩

theorem exceptBind_ok {α β : Type} (a : α) (f : α → Except String β) :
    (Except.ok a >>= f) = f a := rfl

theorem exceptBind_error {α β : Type} (e : String) (f : α → Except String β) :
    ((Except.error e : Except String α) >>= f) = Except.error e := rfl

/-- A successfully built `fitParams` row carries its key and has
`nreplicates` populated exactly on the 'average' row. -/
theorem mkRow_ok {κ : Type} (E : FitEngine κ) (serum virus replicate : String)
    (nreps : ℕ) (c : κ) (row : ParamRow)
    (h : mkRow E serum virus replicate nreps c = Except.ok row) :
    row.serum = serum ∧ row.virus = virus ∧ row.replicate = replicate ∧
    row.nreplicates = (if replicate = "average" then some nreps else none) := by
  rw [mkRow] at h
  cases h1 : E.ic50B c with
  | error e =>
      rw [h1, exceptBind_error] at h
      exact Except.noConfusion h
  | ok a =>
      cases h2 : E.ic50Bd c with
      | error e =>
          rw [h1, exceptBind_ok, h2, exceptBind_error] at h
          exact Except.noConfusion h
      | ok bd =>
          cases h3 : E.ic50S c with
          | error e =>
              rw [h1, exceptBind_ok, h2, exceptBind_ok, h3, exceptBind_error] at h
              exact Except.noConfusion h
          | ok s50 =>
              rw [h1, exceptBind_ok, h2, exceptBind_ok, h3, exceptBind_ok] at h
              simp only [Except.ok.injEq] at h
              rw [← h]
              exact ⟨rfl, rfl, rfl, rfl⟩

/-- What the row-building loop of `fitParams` produces when it succeeds:
one row per key, in order, with `nreplicates` populated exactly on the
'average' rows (counting the non-'average' replicates of the key's
(serum, virus)); the loop changes neither the replicate index nor the
parameter-table cache. -/
theorem buildRows_spec {κ : Type} (E : FitEngine κ) :
    ∀ (ks : List (String × String × String)) (st : CurveFits κ)
      (tbl : List ParamRow) (st1 : CurveFits κ),
      buildRows E st ks = Except.ok (tbl, st1) →
      tbl.map (fun r => (r.serum, r.virus, r.replicate)) = ks ∧
      (∀ r ∈ tbl,
        (r.replicate = "average" → r.nreplicates = some
          (((st.replicates (r.serum, r.virus)).filter fun x =>
            x ≠ "average").length)) ∧
        (r.replicate ≠ "average" → r.nreplicates = none)) ∧
      st1.replicates = st.replicates ∧ st1.fitparams = st.fitparams := by
  intro ks
  induction ks with
  | nil =>
      intro st tbl st1 h
      rw [buildRows] at h
      simp only [Except.ok.injEq, Prod.mk.injEq] at h
      obtain ⟨htbl, hst⟩ := h
      rw [← htbl, ← hst]
      exact ⟨rfl, fun r hr => absurd hr (List.not_mem_nil r), rfl, rfl⟩
  | cons k rest ih =>
      obtain ⟨s, v, rep⟩ := k
      intro st tbl st1 h
      rw [buildRows] at h
      cases hg : getCurve E st s v rep with
      | error e =>
          rw [hg, exceptBind_error] at h
          exact Except.noConfusion h
      | ok p =>
          obtain ⟨c, stA⟩ := p
          rw [hg, exceptBind_ok] at h
          cases hm : mkRow E s v rep
              (((st.replicates (s, v)).filter fun x => x ≠ "average").length) c with
          | error e =>
              simp only [hm, exceptBind_error] at h
              exact Except.noConfusion h
          | ok row =>
              cases hb : buildRows E stA rest with
              | error e =>
                  simp only [hm, exceptBind_ok, hb, exceptBind_error] at h
                  exact Except.noConfusion h
              | ok q =>
                  obtain ⟨rows, stB⟩ := q
                  simp only [hm, exceptBind_ok, hb, exceptBind_error,
                    Except.ok.injEq, Prod.mk.injEq] at h
                  obtain ⟨htbl, hst⟩ := h
                  rw [← htbl, ← hst]
                  obtain ⟨ih1, ih2, ih3, ih4⟩ := ih stA rows stB hb
                  obtain ⟨-, -, hp3, -, hp5⟩ :=
                    getCurve_preserves E st s v rep c stA hg
                  obtain ⟨hr1, hr2, hr3, hr4⟩ := mkRow_ok E s v rep _ c row hm
                  refine ⟨?_, ?_, ?_, ?_⟩
                  · rw [List.map_cons, ih1, hr1, hr2, hr3]
                  · intro r hr
                    rcases List.mem_cons.mp hr with hre | hre
                    · subst hre
                      constructor
                      · intro hav
                        rw [hr4, if_pos (hr3.symm.trans hav), hr1, hr2]
                      · intro hnav
                        rw [hr4, if_neg fun hc => hnav (hr3.trans hc)]
                    · have := ih2 r hre
                      rw [hp3] at this
                      exact this
                  · exact ih3.trans hp3
                  · exact ih4.trans hp5

/-- C7 (confirmed): when the parameter table is already cached,
`fitParams` — for either `average_only` — returns the cached table
(filtered to the 'average' rows when `average_only`) with the state
unchanged, recomputing nothing; when it is not cached, the first call
builds one row for every (serum, virus, replicate) key including
'average' (in iteration order), with the replicate count populated
exactly on the 'average' rows, caches the full table, and applies the
same filter, which returns exactly the rows whose replicate is
'average'. -/
theorem C7_fitParams {κ : Type} (E : FitEngine κ) (st : CurveFits κ) (b : Bool) :
    (∀ tbl, st.fitparams = some tbl →
      fitParams E st b = Except.ok
        ((if b then tbl.filter fun r => r.replicate = "average" else tbl), st)) ∧
    (∀ tbl st1, st.fitparams = none →
      buildRows E st (allKeys st) = Except.ok (tbl, st1) →
      fitParams E st b = Except.ok
        ((if b then tbl.filter fun r => r.replicate = "average" else tbl),
          { st1 with fitparams := some tbl }) ∧
      tbl.map (fun r => (r.serum, r.virus, r.replicate)) = allKeys st ∧
      (∀ r ∈ tbl,
        (r.replicate = "average" → r.nreplicates = some
          (((st.replicates (r.serum, r.virus)).filter fun x =>
            x ≠ "average").length)) ∧
        (r.replicate ≠ "average" → r.nreplicates = none)) ∧
      (∀ r, r ∈ (tbl.filter fun x => x.replicate = "average") ↔
        r ∈ tbl ∧ r.replicate = "average")) := by
  constructor
  · intro tbl htbl
    rw [fitParams, htbl]
  · intro tbl st1 hnone hbuild
    obtain ⟨hb1, hb2, -, -⟩ := buildRows_spec E (allKeys st) st tbl st1 hbuild
    refine ⟨?_, hb1, hb2, ?_⟩
    · rw [fitParams, hnone]
      simp only [hbuild, exceptBind_ok]
    · intro r
      rw [List.mem_filter]
      simp only [decide_eq_true_eq]

end Neutcurve

namespace Neutcurve

/-- The parameter-table row `fitParams` builds for the raw replicate of
`smallFits` under `unitEngine`: `nreplicates` absent. -/
def rawRow : ParamRow :=
  { serum := "s", virus := "v", replicate := "r", nreplicates := none,
    ic50 := 0, ic50_bound := "interpolated", ic50_str := "0",
    midpoint := 0, slope := 0, top := 0, bottom := 0 }

/-- The row for the 'average' replicate: `nreplicates` populated (1). -/
def avgRow : ParamRow :=
  { serum := "s", virus := "v", replicate := "average",
    nreplicates := some 1,
    ic50 := 0, ic50_bound := "interpolated", ic50_str := "0",
    midpoint := 0, slope := 0, top := 0, bottom := 0 }

/-- `smallFits` after both of its keys have been fitted and cached. -/
def smallFits2 : CurveFits Unit :=
  { smallFits with
    hillcurves := [(("s", "v", "average"), ()), (("s", "v", "r"), ())],
    fitCount := 2 }

/-- `smallFits2` with the parameter table cached. -/
def cachedFits : CurveFits Unit :=
  { smallFits2 with fitparams := some [rawRow, avgRow] }

/-- C7 (witness): the theorem at the concrete one-serum state — a call
on the cached state filters the cached table with the state unchanged,
and the first call on the uncached state builds, caches and filters the
two-row table. -/
theorem C7_fitParams_witness :
    fitParams unitEngine cachedFits true = Except.ok ([avgRow], cachedFits) ∧
    fitParams unitEngine smallFits true = Except.ok ([avgRow],
      { smallFits2 with fitparams := some [rawRow, avgRow] }) := by
  constructor
  · have h := (C7_fitParams unitEngine cachedFits true).1 [rawRow, avgRow] rfl
    simpa [rawRow, avgRow] using h
  · have h := ((C7_fitParams unitEngine smallFits true).2 [rawRow, avgRow]
      smallFits2 rfl rfl).1
    simpa [rawRow, avgRow] using h

end Neutcurve
